import Mathlib

/-!
# Meeting Bingo server — formal model

Shallow embedding of `src/server/main.py` (Meeting Bingo Server).
Pure helpers (`check_bingo`, `normalize_text`, `split_hyphenated`,
`phrase_matches_transcript`, `find_matching_words`) are translated directly;
the stateful REST/WebSocket handlers are modelled as pure functions on an
explicit registry state (association lists standing for the Python dicts,
which keep insertion order and unique keys).  Network delivery, FastAPI
routing and the Whisper transcription engine are external collaborators:
broadcasts are modelled as emitted event lists, and the transcription
result is an input string.  Text handling is modelled for ASCII input
(the regex class `\w` becomes "ASCII alphanumeric or underscore").
-/

namespace MeetingBingo

/-- `\w` character class of `re` as used on ASCII text: alphanumeric or `_`. -/
def isWordChar (c : Char) : Bool := c.isAlphanum || c = '_'

/-- `\s` character class of `re`: ASCII whitespace. -/
def isSpaceChar (c : Char) : Bool :=
  c = ' ' || c = '\t' || c = '\n' || c = '\r' || c = '\x0b' || c = '\x0c'

/-- `normalize_text` from the source: lowercase, then delete every character
that is neither a word character nor whitespace (`re.sub(r'[^\w\s]', '', text.lower())`). -/
def normalize_text (text : String) : String :=
  String.mk ((text.toList.map Char.toLower).filter (fun c => isWordChar c || isSpaceChar c))

/-- Python `str.split()`: split on whitespace runs, dropping empty pieces. -/
def pySplitAux (cur : List Char) : List Char → List String
  | [] => if cur.isEmpty then [] else [String.mk cur.reverse]
  | c :: rest =>
    if isSpaceChar c then
      if cur.isEmpty then pySplitAux [] rest
      else String.mk cur.reverse :: pySplitAux [] rest
    else pySplitAux (c :: cur) rest

def pySplit (s : String) : List String := pySplitAux [] s.toList

/-- `split_hyphenated` from the source: lowercase, replace every
non-word non-space character by a space, then split
(`re.sub(r'[^\w\s]', ' ', text.lower()).split()`). -/
def split_hyphenated (text : String) : List String :=
  pySplitAux []
    ((text.toList.map Char.toLower).map (fun c => if isWordChar c || isSpaceChar c then c else ' '))

/-!
## Porter stemmer

The source uses `nltk.stem.PorterStemmer()` (default `NLTK_EXTENSIONS` mode).
That library is an external dependency of the repository; the functions below
are a direct translation of its algorithm (working on lowercase ASCII
character lists): the classic Porter 1980 steps together with the NLTK
extensions (irregular-form pool, short-word cut-off, the `ies`/`ied`
length-4 rules, the revised step-1c condition, the `alli`-first and
`fulli`/`logi` rules of step 2, and the two-letter `cvc` rule).
-/

def isVowelLetter (c : Char) : Bool :=
  c = 'a' || c = 'e' || c = 'i' || c = 'o' || c = 'u'

/-- `_is_consonant(word, i)`: `y` is a consonant at position 0 and after a vowel. -/
def isConsonant (w : List Char) : Nat → Bool
  | 0 => !(isVowelLetter (w.getD 0 ' '))
  | i + 1 =>
    let c := w.getD (i + 1) ' '
    if isVowelLetter c then false
    else if c = 'y' then !(isConsonant w i)
    else true

/-- `_measure`: number of `vc` blocks in the consonant/vowel sequence. -/
def pMeasure (st : List Char) : Nat :=
  ((List.range st.length).filter
    (fun i => 0 < i && isConsonant st i && !(isConsonant st (i - 1)))).length

def containsVowel (st : List Char) : Bool :=
  (List.range st.length).any (fun i => !(isConsonant st i))

def endsDoubleConsonant (w : List Char) : Bool :=
  2 ≤ w.length && w.getD (w.length - 1) ' ' = w.getD (w.length - 2) ' '
    && isConsonant w (w.length - 1)

/-- `_ends_cvc` with the NLTK two-letter extension. -/
def endsCVC (w : List Char) : Bool :=
  (3 ≤ w.length && isConsonant w (w.length - 3) && !(isConsonant w (w.length - 2))
      && isConsonant w (w.length - 1)
      && !(w.getD (w.length - 1) ' ' = 'w' || w.getD (w.length - 1) ' ' = 'x'
            || w.getD (w.length - 1) ' ' = 'y'))
  || (w.length = 2 && !(isConsonant w 0) && isConsonant w 1)

def endsWith (w sfx : List Char) : Bool := sfx.isSuffixOf w

def dropSfx (w : List Char) (n : Nat) : List Char := w.take (w.length - n)

/-- `_apply_rule_list` for plain suffix rules: the first rule whose suffix
matches decides the outcome (replacement if the condition holds, otherwise
the word is returned unchanged). -/
def applyRuleList (word : List Char) :
    List (List Char × List Char × (List Char → Bool)) → List Char
  | [] => word
  | (sfx, repl, cond) :: rest =>
    if endsWith word sfx then
      let st := dropSfx word sfx.length
      if cond st then st ++ repl else word
    else applyRuleList word rest

def step1a (w : List Char) : List Char :=
  if endsWith w ['i', 'e', 's'] && w.length = 4 then dropSfx w 3 ++ ['i', 'e']
  else applyRuleList w
    [(['s','s','e','s'], ['s','s'], fun _ => true),
     (['i','e','s'], ['i'], fun _ => true),
     (['s','s'], ['s','s'], fun _ => true),
     (['s'], [], fun _ => true)]

/-- The post-`ed`/`ing` fix-up of step 1b (`at`→`ate`, `bl`→`ble`, `iz`→`ize`,
undouble a final double consonant unless it is `l`/`s`/`z`, add `e` after a
short stem). -/
def step1bPost (st : List Char) : List Char :=
  if endsWith st ['a','t'] then dropSfx st 2 ++ ['a','t','e']
  else if endsWith st ['b','l'] then dropSfx st 2 ++ ['b','l','e']
  else if endsWith st ['i','z'] then dropSfx st 2 ++ ['i','z','e']
  else if endsDoubleConsonant st then
    if !(st.getD (st.length - 1) ' ' = 'l' || st.getD (st.length - 1) ' ' = 's'
          || st.getD (st.length - 1) ' ' = 'z') then st.take (st.length - 1)
    else st
  else if pMeasure st = 1 && endsCVC st then st ++ ['e']
  else st

def step1b (w : List Char) : List Char :=
  if endsWith w ['i','e','d'] then
    if w.length = 4 then dropSfx w 3 ++ ['i','e'] else dropSfx w 3 ++ ['i']
  else if endsWith w ['e','e','d'] then
    (if 0 < pMeasure (dropSfx w 3) then dropSfx w 3 ++ ['e','e'] else w)
  else if endsWith w ['e','d'] && containsVowel (dropSfx w 2) then
    step1bPost (dropSfx w 2)
  else if endsWith w ['i','n','g'] && containsVowel (dropSfx w 3) then
    step1bPost (dropSfx w 3)
  else w

/-- Step 1c with the NLTK condition (stem longer than one character and
ending in a consonant). -/
def step1c (w : List Char) : List Char :=
  if endsWith w ['y'] then
    let st := dropSfx w 1
    if 1 < st.length && isConsonant st (st.length - 1) then st ++ ['i'] else w
  else w

def step2Rules (w : List Char) : List Char :=
  applyRuleList w
    [(['a','t','i','o','n','a','l'], ['a','t','e'], fun st => 0 < pMeasure st),
     (['t','i','o','n','a','l'], ['t','i','o','n'], fun st => 0 < pMeasure st),
     (['e','n','c','i'], ['e','n','c','e'], fun st => 0 < pMeasure st),
     (['a','n','c','i'], ['a','n','c','e'], fun st => 0 < pMeasure st),
     (['i','z','e','r'], ['i','z','e'], fun st => 0 < pMeasure st),
     (['b','l','i'], ['b','l','e'], fun st => 0 < pMeasure st),
     (['a','l','l','i'], ['a','l'], fun st => 0 < pMeasure st),
     (['e','n','t','l','i'], ['e','n','t'], fun st => 0 < pMeasure st),
     (['e','l','i'], ['e'], fun st => 0 < pMeasure st),
     (['o','u','s','l','i'], ['o','u','s'], fun st => 0 < pMeasure st),
     (['i','z','a','t','i','o','n'], ['i','z','e'], fun st => 0 < pMeasure st),
     (['a','t','i','o','n'], ['a','t','e'], fun st => 0 < pMeasure st),
     (['a','t','o','r'], ['a','t','e'], fun st => 0 < pMeasure st),
     (['a','l','i','s','m'], ['a','l'], fun st => 0 < pMeasure st),
     (['i','v','e','n','e','s','s'], ['i','v','e'], fun st => 0 < pMeasure st),
     (['f','u','l','n','e','s','s'], ['f','u','l'], fun st => 0 < pMeasure st),
     (['o','u','s','n','e','s','s'], ['o','u','s'], fun st => 0 < pMeasure st),
     (['a','l','i','t','i'], ['a','l'], fun st => 0 < pMeasure st),
     (['i','v','i','t','i'], ['i','v','e'], fun st => 0 < pMeasure st),
     (['b','i','l','i','t','i'], ['b','l','e'], fun st => 0 < pMeasure st),
     (['f','u','l','l','i'], ['f','u','l'], fun st => 0 < pMeasure st),
     -- the `logi` rule's NLTK condition looks at the whole word minus `ogi`,
     -- not at the stem
     (['l','o','g','i'], ['l','o','g'], fun _ => 0 < pMeasure (dropSfx w 3))]

/-- Step 2.  The NLTK `alli`-first special case recurses once; the recursive
call's word ends in `al`, so its own `alli` test is false and it reduces to
the plain rule list — written here unrolled. -/
def step2 (w : List Char) : List Char :=
  if endsWith w ['a','l','l','i'] && 0 < pMeasure (dropSfx w 4) then
    step2Rules (dropSfx w 4 ++ ['a','l'])
  else step2Rules w

def step3 (w : List Char) : List Char :=
  applyRuleList w
    [(['i','c','a','t','e'], ['i','c'], fun st => 0 < pMeasure st),
     (['a','t','i','v','e'], [], fun st => 0 < pMeasure st),
     (['a','l','i','z','e'], ['a','l'], fun st => 0 < pMeasure st),
     (['i','c','i','t','i'], ['i','c'], fun st => 0 < pMeasure st),
     (['i','c','a','l'], ['i','c'], fun st => 0 < pMeasure st),
     (['f','u','l'], [], fun st => 0 < pMeasure st),
     (['n','e','s','s'], [], fun st => 0 < pMeasure st)]

def step4 (w : List Char) : List Char :=
  applyRuleList w
    [(['a','l'], [], fun st => 1 < pMeasure st),
     (['a','n','c','e'], [], fun st => 1 < pMeasure st),
     (['e','n','c','e'], [], fun st => 1 < pMeasure st),
     (['e','r'], [], fun st => 1 < pMeasure st),
     (['i','c'], [], fun st => 1 < pMeasure st),
     (['a','b','l','e'], [], fun st => 1 < pMeasure st),
     (['i','b','l','e'], [], fun st => 1 < pMeasure st),
     (['a','n','t'], [], fun st => 1 < pMeasure st),
     (['e','m','e','n','t'], [], fun st => 1 < pMeasure st),
     (['m','e','n','t'], [], fun st => 1 < pMeasure st),
     (['e','n','t'], [], fun st => 1 < pMeasure st),
     (['i','o','n'], [],
       fun st => 1 < pMeasure st
         && (st.getD (st.length - 1) ' ' = 's' || st.getD (st.length - 1) ' ' = 't')),
     (['o','u'], [], fun st => 1 < pMeasure st),
     (['i','s','m'], [], fun st => 1 < pMeasure st),
     (['a','t','e'], [], fun st => 1 < pMeasure st),
     (['i','t','i'], [], fun st => 1 < pMeasure st),
     (['o','u','s'], [], fun st => 1 < pMeasure st),
     (['i','v','e'], [], fun st => 1 < pMeasure st),
     (['i','z','e'], [], fun st => 1 < pMeasure st)]

def step5a (w : List Char) : List Char :=
  if endsWith w ['e'] then
    let st := dropSfx w 1
    if 1 < pMeasure st then st
    else if pMeasure st = 1 && !(endsCVC st) then st
    else w
  else w

def step5b (w : List Char) : List Char :=
  if 1 < pMeasure w && endsDoubleConsonant w && endsWith w ['l'] then
    w.take (w.length - 1)
  else w

/-- The NLTK irregular-form pool. -/
def poolLookup (w : String) : Option String :=
  if w = "sky" || w = "skies" then some "sky"
  else if w = "dying" then some "die"
  else if w = "lying" then some "lie"
  else if w = "tying" then some "tie"
  else if w = "news" then some "news"
  else if w = "innings" || w = "inning" then some "inning"
  else if w = "outings" || w = "outing" then some "outing"
  else if w = "cannings" || w = "canning" then some "canning"
  else if w = "howe" then some "howe"
  else if w = "proceed" then some "proceed"
  else if w = "exceed" then some "exceed"
  else if w = "succeed" then some "succeed"
  else none

def stemSteps (w : List Char) : List Char :=
  step5b (step5a (step4 (step3 (step2 (step1c (step1b (step1a w)))))))

/-- `stemmer.stem(word)`: lowercase, irregular pool, two-letter cut-off,
then the eight Porter steps. -/
def porterStem (word : String) : String :=
  let low := word.toList.map Char.toLower
  match poolLookup word with
  | some s => s
  | none =>
    if word.toList.length ≤ 2 then String.mk low
    else String.mk (stemSteps low)

/-- `stem_words` from the source. -/
def stem_words (words : List String) : List String := words.map porterStem

/-!
## Phrase matcher
-/

/-- The scan loop of `phrase_matches_transcript`: `i` is the index of the head
of the remaining transcript, `last` is `last_match_pos` (initially `-1`),
`idx` is `phrase_idx`.  The source indexes `phrase_stems[phrase_idx]` only
while `phrase_idx < len(phrase_stems)` (it returns as soon as the phrase is
complete), so the `getD` default is never read. -/
def pmtGo (ps : List String) (maxGap : Nat) : List String → Nat → Int → Nat → Bool
  | [], _, _, _ => false
  | t :: ts, i, last, idx =>
    if t = ps.getD idx "" then
      if 0 < idx ∧ (maxGap : Int) < (i : Int) - last - 1 then
        -- gap too large: reset, restarting here when the token is the first stem
        if t = ps.getD 0 "" then pmtGo ps maxGap ts (i + 1) (i : Int) 1
        else pmtGo ps maxGap ts (i + 1) last 0
      else
        if idx + 1 = ps.length then true
        else pmtGo ps maxGap ts (i + 1) (i : Int) (idx + 1)
    else pmtGo ps maxGap ts (i + 1) last idx

/-- `phrase_matches_transcript` from the source (default `max_gap = 3`). -/
def phrase_matches_transcript (phrase_stems transcript_stems : List String)
    (max_gap : Nat := 3) : Bool :=
  if phrase_stems.isEmpty then false
  else pmtGo phrase_stems max_gap transcript_stems 0 (-1) 0

/-- Python `word.upper()` on ASCII text. -/
def toUpperStr (s : String) : String := String.mk (s.toList.map Char.toUpper)

/-- `find_matching_words` from the source: stems of the normalized transcript,
then every non-empty non-`FREE` cell in row-major order; single-stem phrases
by containment, longer phrases through `phrase_matches_transcript`. -/
def find_matching_words (transcript : String) (words : List (List String)) :
    List (Nat × Nat) :=
  let transcript_stems := stem_words (pySplit (normalize_text transcript))
  ((List.range 5).map (fun row =>
    (List.range 5).filterMap (fun col =>
      let word := (words.getD row []).getD col ""
      if word = "" || toUpperStr word = "FREE" then none
      else
        let phrase_words := split_hyphenated word
        if phrase_words.isEmpty then none
        else
          let phrase_stems := stem_words phrase_words
          if phrase_stems.length = 1 then
            if transcript_stems.contains (phrase_stems.getD 0 "") then some (row, col)
            else none
          else if phrase_matches_transcript phrase_stems transcript_stems then
            some (row, col)
          else none))).flatten

/-!
## Win detector
-/

/-- `check_bingo` from the source: any full row, any full column, either
diagonal.  The source indexes `marked_cells[row][col]` directly; on the
5×5 grids it is called with, `getD` reads the same cells. -/
def check_bingo (marked_cells : List (List Bool)) : Bool :=
  marked_cells.any (fun row => row.all (fun b => b))
  || (List.range 5).any (fun col =>
        (List.range 5).all (fun row => (marked_cells.getD row []).getD col false))
  || (List.range 5).all (fun i => (marked_cells.getD i []).getD i false)
  || (List.range 5).all (fun i => (marked_cells.getD i []).getD (4 - i) false)

/-!
## Specification-side definitions

These follow the spec's words, for comparison with the source translations
above.
-/

/-- Cell read of a grid of booleans, as the spec's "cell (r, c)". -/
def cellAt (g : List (List Bool)) (r c : Nat) : Bool := (g.getD r []).getD c false

/-- The spec's win condition: some row all-true, or some column all-true,
or the main diagonal, or the anti-diagonal. -/
def winSpec (g : List (List Bool)) : Prop :=
  (∃ r < 5, ∀ c < 5, cellAt g r c = true) ∨
  (∃ c < 5, ∀ r < 5, cellAt g r c = true) ∨
  (∀ i < 5, cellAt g i i = true) ∨
  (∀ i < 5, cellAt g i (4 - i) = true)

/-- Spec-side ordered occurrence search, continuation: all of `ps` occur in
order in `ts`, the next match after skipping at most `budget` tokens and
every later consecutive pair separated by at most `maxGap` intervening
tokens.  Exhaustive over all choices of positions. -/
def occAux (maxGap : Nat) : Nat → List String → List String → Bool
  | _, [], _ => true
  | _, _ :: _, [] => false
  | budget, p :: ps, t :: ts =>
    (t = p && occAux maxGap maxGap ps ts)
    || (match budget with
        | 0 => false
        | b + 1 => occAux maxGap b (p :: ps) ts)

/-- Spec-side occurrence search: the first stem may match anywhere. -/
def occStart (maxGap : Nat) (p : String) (ps : List String) : List String → Bool
  | [] => false
  | t :: ts => (t = p && occAux maxGap maxGap ps ts) || occStart maxGap p ps ts

/-- The spec's matching condition for a phrase: all phrase stems occur in the
transcript stem sequence in order, with at most 3 intervening unmatched
transcript tokens between consecutive matched phrase stems. -/
def existsOccurrence (phrase_stems transcript_stems : List String) : Bool :=
  match phrase_stems with
  | [] => false
  | p :: ps => occStart 3 p ps transcript_stems

/-!
## Data model

Python dicts are modelled as association lists with unique keys kept in
insertion order; `datetime.now()` values are opaque `Nat` ticks supplied by
the caller.  WebSocket handles are identified by the player id that owns
them; broadcasts are modelled as emitted events (best-effort delivery and
its disconnect side effects are transport behavior outside this model).
-/

/-- `PlayerState` from the source.  A fresh player has an all-false 5×5
`marked_cells` grid and an all-empty 5×5 `words` grid. -/
structure PlayerState where
  player_id : String
  player_name : String
  client_ip : String := ""
  marked_cells : List (List Bool) := List.replicate 5 (List.replicate 5 false)
  words : List (List String) := List.replicate 5 (List.replicate 5 "")
  has_bingo : Bool := false
  connected : Bool := true
  last_seen : Nat := 0
deriving DecidableEq, Repr

/-- The public snapshot produced by `PlayerState.to_dict` (drops `client_ip`
and `last_seen`). -/
structure PlayerDict where
  player_id : String
  player_name : String
  marked_cells : List (List Bool)
  words : List (List String)
  has_bingo : Bool
  connected : Bool
deriving DecidableEq, Repr

def PlayerState.to_dict (p : PlayerState) : PlayerDict :=
  { player_id := p.player_id, player_name := p.player_name,
    marked_cells := p.marked_cells, words := p.words,
    has_bingo := p.has_bingo, connected := p.connected }

/-- One entry of the `marked_cells` list in the `/api/transcribe` response. -/
structure MarkInfo where
  player_id : String
  player_name : String
  row : Nat
  col : Nat
  word : String
deriving DecidableEq, Repr

/-- Broadcast messages, one constructor per message type the modelled
operations emit. -/
inductive Event where
  | player_joined (player : PlayerDict)
  | player_left (player_id player_name : String)
  | player_updated (player : PlayerDict)
  | bingo (player_id player_name : String)
  | transcriptMsg (text : String) (marked_cells : List MarkInfo)
deriving DecidableEq, Repr

/-- `GameRoom` from the source; `websockets` keeps the ids of players with a
live connection. -/
structure GameRoom where
  meeting_id : String
  players : List (String × PlayerState) := []
  websockets : List String := []
  created_at : Nat := 0
deriving DecidableEq, Repr

/-- The process-wide `game_rooms` dict. -/
def Registry := List (String × GameRoom)
deriving instance DecidableEq for Registry

/-- Python dict assignment `d[k] = v`: replace in place if the key is
present, otherwise append. -/
def setA {α : Type} : List (String × α) → String → α → List (String × α)
  | [], k, v => [(k, v)]
  | (k', v') :: rest, k, v =>
    if k' = k then (k, v) :: rest else (k', v') :: setA rest k v

/-- Look up a player through room then player id. -/
def playerLookup (registry : Registry) (meeting_id player_id : String) :
    Option PlayerState :=
  match List.lookup meeting_id registry with
  | none => none
  | some room => List.lookup player_id room.players

/-- `get_all_player_states` from the source. -/
def GameRoom.get_all_player_states (room : GameRoom)
    (exclude_player_id : Option String := none) : List PlayerDict :=
  (room.players.map Prod.snd).filterMap (fun p =>
    if exclude_player_id = some p.player_id then none else some p.to_dict)

structure JoinGameResponse where
  player_id : String
  meeting_id : String
  players : List PlayerDict
deriving DecidableEq, Repr

/-- `join_game` (`POST /api/join`).  `player_id` stands for the fresh
`uuid4` prefix and `now` for `datetime.now()`.  Creates the room if absent,
removes every player with the same `client_ip` (closing their websocket and
broadcasting `player_left` for each), inserts the new player and broadcasts
`player_joined` to the others. -/
def join_game (registry : Registry) (meeting_id player_name client_ip : String)
    (player_id : String) (now : Nat) :
    Registry × List Event × JoinGameResponse :=
  let room :=
    match List.lookup meeting_id registry with
    | some r => r
    | none => { meeting_id := meeting_id, created_at := now }
  let players_to_remove := room.players.filter (fun pr => pr.2.client_ip = client_ip)
  let room1 : GameRoom :=
    { room with
      players := room.players.filter (fun pr => ¬(pr.2.client_ip = client_ip)),
      websockets := room.websockets.filter
        (fun w => ¬(∃ pr ∈ players_to_remove, pr.1 = w)) }
  let player : PlayerState :=
    { player_id := player_id, player_name := player_name,
      client_ip := client_ip, last_seen := now }
  let room2 : GameRoom := { room1 with players := setA room1.players player_id player }
  let events :=
    players_to_remove.map (fun pr => Event.player_left pr.1 pr.2.player_name)
      ++ [Event.player_joined player.to_dict]
  (setA registry meeting_id room2, events,
    { player_id := player_id, meeting_id := meeting_id,
      players := room2.get_all_player_states (some player_id) })

/-- Set one cell of a grid to `true` (Python `grid[row][col] = True`). -/
def setCell (g : List (List Bool)) (row col : Nat) : List (List Bool) :=
  g.set row ((g.getD row []).set col true)

/-- The in-range marking step shared verbatim by the REST handler and the
WebSocket `mark_cell` message: set the cell, recompute `has_bingo`, update
`last_seen`. -/
def markPlayer (p : PlayerState) (row col : Nat) (now : Nat) : PlayerState :=
  let marked := setCell p.marked_cells row col
  { p with marked_cells := marked, has_bingo := check_bingo marked, last_seen := now }

structure MarkCellResponse where
  status : String
  has_bingo : Bool
deriving DecidableEq, Repr

/-- `mark_cell` (`POST /api/mark`).  `.error 404` models the
`HTTPException(404)` raises; out-of-range coordinates are silently skipped,
but the `player_updated` broadcast (and the `bingo` broadcast whenever
`has_bingo` holds after the call) still happens. -/
def mark_cell (registry : Registry) (meeting_id player_id : String)
    (row col : Int) (now : Nat) :
    Except Nat (Registry × List Event × MarkCellResponse) :=
  match List.lookup meeting_id registry with
  | none => .error 404
  | some room =>
    match List.lookup player_id room.players with
    | none => .error 404
    | some player =>
      let player1 :=
        if 0 ≤ row ∧ row < 5 ∧ 0 ≤ col ∧ col < 5 then
          markPlayer player row.toNat col.toNat now
        else player
      let room1 := { room with players := setA room.players player_id player1 }
      let events :=
        Event.player_updated player1.to_dict ::
          (if player1.has_bingo then [Event.bingo player_id player1.player_name] else [])
      .ok (setA registry meeting_id room1, events,
        { status := "ok", has_bingo := player1.has_bingo })

/-- One inbound WebSocket `mark_cell {row, col}` message on an accepted
connection (`none` models the paths where the room or player record is
gone).  Out-of-range coordinates do nothing at all — not even a broadcast. -/
def ws_mark_cell (registry : Registry) (meeting_id player_id : String)
    (row col : Int) (now : Nat) : Option (Registry × List Event) :=
  match List.lookup meeting_id registry with
  | none => none
  | some room =>
    match List.lookup player_id room.players with
    | none => none
    | some player =>
      if 0 ≤ row ∧ row < 5 ∧ 0 ≤ col ∧ col < 5 then
        let player1 := markPlayer player row.toNat col.toNat now
        let room1 := { room with players := setA room.players player_id player1 }
        let events :=
          Event.player_updated player1.to_dict ::
            (if player1.has_bingo then [Event.bingo player_id player1.player_name] else [])
        some (setA registry meeting_id room1, events)
      else some (registry, [])

structure StatusResponse where
  status : String
deriving DecidableEq, Repr

/-- `leave_game` (`DELETE /api/room/{meeting_id}/player/{player_id}`).
A missing room raises 404; a missing player in an existing room is a no-op
that still returns ok. -/
def leave_game (registry : Registry) (meeting_id player_id : String) :
    Except Nat (Registry × List Event × StatusResponse) :=
  match List.lookup meeting_id registry with
  | none => .error 404
  | some room =>
    match List.lookup player_id room.players with
    | none => .ok (registry, [], { status := "ok" })
    | some player =>
      let player1 := { player with connected := false }
      let room1 :=
        { room with
          players := setA room.players player_id player1,
          websockets := room.websockets.filter (fun w => ¬(w = player_id)) }
      .ok (setA registry meeting_id room1,
        [Event.player_left player_id player1.player_name], { status := "ok" })

/-- `set_player_words` (`POST /api/room/{mid}/player/{pid}/words`): stores
the posted grid as-is — the handler performs no shape validation. -/
def set_player_words (registry : Registry) (meeting_id player_id : String)
    (words : List (List String)) :
    Except Nat (Registry × StatusResponse) :=
  match List.lookup meeting_id registry with
  | none => .error 404
  | some room =>
    match List.lookup player_id room.players with
    | none => .error 404
    | some player =>
      let player1 := { player with words := words }
      let room1 := { room with players := setA room.players player_id player1 }
      .ok (setA registry meeting_id room1, { status := "ok" })

/-- The marking loop of `transcribe_audio`: walk the matched cells, mark a
cell and record it only when it was not already marked. -/
def applyMatches (player_id player_name : String) (words : List (List String)) :
    List (List Bool) → List (Nat × Nat) → List (List Bool) × List MarkInfo
  | marked, [] => (marked, [])
  | marked, (row, col) :: rest =>
    if cellAt marked row col then
      applyMatches player_id player_name words marked rest
    else
      let marked1 := setCell marked row col
      let out := applyMatches player_id player_name words marked1 rest
      (out.1,
        { player_id := player_id, player_name := player_name, row := row,
          col := col, word := (words.getD row []).getD col "" } :: out.2)

structure TranscribeResponse where
  status : String
  transcript : String
  language : String
  marked_cells : List MarkInfo
deriving DecidableEq, Repr

/-- `transcribe_audio` (`POST /api/transcribe`).  The Whisper call is the
external transcription provider; its output `(transcript, language)` is
taken as input here.  Marks matching unmarked cells of the named player
only, recomputes `has_bingo` when there was any match, and broadcasts the
transcript, the updated player, and `bingo` whenever `has_bingo` holds; a
missing room or player still returns the transcript with no marking. -/
def transcribe_audio (registry : Registry) (meeting_id player_id : String)
    (transcript language : String) :
    Registry × List Event × TranscribeResponse :=
  let noMark : TranscribeResponse :=
    { status := "ok", transcript := transcript, language := language,
      marked_cells := [] }
  match List.lookup meeting_id registry with
  | none => (registry, [], noMark)
  | some room =>
    match List.lookup player_id room.players with
    | none => (registry, [], noMark)
    | some player =>
      let matchList := find_matching_words transcript player.words
      let out := applyMatches player_id player.player_name player.words
        player.marked_cells matchList
      let player1 := { player with marked_cells := out.1 }
      let player2 :=
        if matchList.isEmpty then player1
        else { player1 with has_bingo := check_bingo out.1 }
      let room1 := { room with players := setA room.players player_id player2 }
      let events :=
        Event.transcriptMsg transcript out.2 ::
          Event.player_updated player2.to_dict ::
            (if player2.has_bingo then [Event.bingo player_id player2.player_name] else [])
      (setA registry meeting_id room1, events,
        { status := "ok", transcript := transcript, language := language,
          marked_cells := out.2 })

/-- Spec-side shape predicate: exactly 5 rows of exactly 5 entries. -/
def is5x5 {α : Type} (g : List (List α)) : Prop :=
  g.length = 5 ∧ ∀ r ∈ g, r.length = 5

instance {α : Type} (g : List (List α)) : Decidable (is5x5 g) := by
  unfold is5x5; infer_instance

/-!
## Helper lemmas
-/

theorem lookup_setA_self {α : Type} (l : List (String × α)) (k : String) (v : α) :
    List.lookup k (setA l k v) = some v := by
  induction l with
  | nil => simp [setA]
  | cons hd tl ih =>
    obtain ⟨a, b⟩ := hd
    by_cases h : a = k
    · subst h; simp [setA]
    · have hba : (k == a) = false := beq_eq_false_iff_ne.mpr (Ne.symm h)
      simp [setA, h, List.lookup, hba, ih]

theorem lookup_setA_ne {α : Type} (l : List (String × α)) (k k' : String) (v : α)
    (h : k' ≠ k) : List.lookup k' (setA l k v) = List.lookup k' l := by
  have hkk : (k' == k) = false := beq_eq_false_iff_ne.mpr h
  induction l with
  | nil => simp [setA, List.lookup, hkk]
  | cons hd tl ih =>
    obtain ⟨a, b⟩ := hd
    by_cases hak : a = k
    · subst hak; simp [setA, List.lookup, hkk]
    · simp [setA, hak, List.lookup, ih]

theorem playerLookup_setA (registry : Registry) (mid : String) (room1 : GameRoom)
    (mid' pid' : String) :
    playerLookup (setA registry mid room1) mid' pid' =
      if mid' = mid then List.lookup pid' room1.players
      else playerLookup registry mid' pid' := by
  unfold playerLookup
  by_cases h : mid' = mid
  · subst h; simp [lookup_setA_self]
  · simp [h, lookup_setA_ne _ _ _ _ h]

theorem lookup_setA_cases {α : Type} (l : List (String × α)) (k k' : String) (v : α) :
    List.lookup k' (setA l k v) = if k' = k then some v else List.lookup k' l := by
  by_cases h : k' = k
  · subst h; simp [lookup_setA_self]
  · simp [h, lookup_setA_ne _ _ _ _ h]

theorem getD_eq_getElem_of_lt {α : Type} (l : List α) (d : α) (i : Nat)
    (h : i < l.length) : l.getD i d = l[i] := by
  simp [List.getD_eq_getElem?_getD, List.getElem?_eq_getElem h]

theorem getD_eq_default_of_le {α : Type} (l : List α) (d : α) (i : Nat)
    (h : l.length ≤ i) : l.getD i d = d := by
  simp [List.getD_eq_getElem?_getD, List.getElem?_eq_none h]

theorem cellAt_true_bounds (g : List (List Bool)) (i j : Nat)
    (h : cellAt g i j = true) : i < g.length ∧ j < (g.getD i []).length := by
  by_cases hi : i < g.length
  · refine ⟨hi, ?_⟩
    by_cases hj : j < (g.getD i []).length
    · exact hj
    · rw [cellAt, getD_eq_default_of_le _ _ _ (Nat.le_of_not_lt hj)] at h; cases h
  · rw [cellAt, getD_eq_default_of_le _ _ _ (Nat.le_of_not_lt hi)] at h
    simp [List.getD] at h

theorem cellAt_setCell_ne (g : List (List Bool)) (r c r' c' : Nat)
    (h : ¬(r' = r ∧ c' = c)) : cellAt (setCell g r c) r' c' = cellAt g r' c' := by
  unfold cellAt setCell
  simp only [List.getD_eq_getElem?_getD]
  by_cases hr : r' = r
  · subst hr
    have hc' : c ≠ c' := fun he => h ⟨rfl, he.symm⟩
    by_cases hlen : r' < g.length
    · rw [List.getElem?_set_self hlen]
      simp only [Option.getD_some]
      rw [List.getElem?_set_ne hc']
    · rw [List.set_eq_of_length_le (Nat.le_of_not_lt hlen)]
  · rw [List.getElem?_set_ne (fun he => hr he.symm)]

theorem cellAt_setCell_mono (g : List (List Bool)) (r c i j : Nat)
    (h : cellAt g i j = true) : cellAt (setCell g r c) i j = true := by
  by_cases hij : i = r ∧ j = c
  · obtain ⟨hi, hj⟩ := hij; subst hi; subst hj
    obtain ⟨hil, hjl⟩ := cellAt_true_bounds g i j h
    unfold cellAt setCell
    simp only [List.getD_eq_getElem?_getD] at hjl ⊢
    rw [List.getElem?_set_self hil]
    simp only [Option.getD_some]
    rw [List.getElem?_set_self hjl]
    simp
  · rw [cellAt_setCell_ne _ _ _ _ _ hij]; exact h

/-- Monotone growth of a boolean grid: no true cell ever becomes false. -/
def gridMonotone (m m' : List (List Bool)) : Prop :=
  ∀ i j, cellAt m i j = true → cellAt m' i j = true

theorem gridMonotone_refl (m : List (List Bool)) : gridMonotone m m :=
  fun _ _ h => h

theorem gridMonotone_setCell (m : List (List Bool)) (r c : Nat) :
    gridMonotone m (setCell m r c) :=
  fun i j h => cellAt_setCell_mono m r c i j h

theorem gridMonotone_applyMatches (pid name : String) (words : List (List String)) :
    ∀ (lst : List (Nat × Nat)) (m : List (List Bool)),
      gridMonotone m (applyMatches pid name words m lst).1 := by
  intro lst
  induction lst with
  | nil => intro m; simpa [applyMatches] using gridMonotone_refl m
  | cons hd tl ih =>
    intro m
    obtain ⟨r, c⟩ := hd
    by_cases hm : cellAt m r c = true
    · simpa [applyMatches, hm] using ih m
    · simp only [applyMatches, hm, if_neg, Bool.false_eq_true, not_false_eq_true,
        if_neg]
      intro i j hij
      exact ih (setCell m r c) i j (gridMonotone_setCell m r c i j hij)

theorem filter_setA_unique {α : Type} (l : List (String × α)) (k : String) (v : α)
    (p : String × α → Bool) (hl : ∀ x ∈ l, p x = false) (hv : p (k, v) = true) :
    (setA l k v).filter p = [(k, v)] := by
  induction l with
  | nil => simp [setA, hv]
  | cons hd tl ih =>
    obtain ⟨a, b⟩ := hd
    have hab : p (a, b) = false := hl (a, b) (List.mem_cons_self _ _)
    have htl : ∀ x ∈ tl, p x = false := fun x hx => hl x (List.mem_cons_of_mem _ hx)
    by_cases hak : a = k
    · subst hak
      simp only [setA, if_pos rfl, List.filter_cons, hv, if_pos]
      have : tl.filter p = [] := List.filter_eq_nil_iff.mpr (fun x hx => by
        simp [htl x hx])
      simp [this]
    · simp only [setA, if_neg hak, List.filter_cons, hab]
      simpa using ih htl

/-!
## Claim theorems
-/

/-- Concrete room used for counterexamples and witnesses: meeting `"m"`
holding one freshly joined player `"p"` named `"n"`. -/
def demoRegistry : Registry :=
  [("m", { meeting_id := "m",
           players := [("p", { player_id := "p", player_name := "n" })] })]

/-- C5 (counterexample): leaving a meeting whose room does not exist raises
404 instead of returning ok — the operation is not no-op-safe for an absent
room. -/
theorem C5_leave_counterexample :
    leave_game ([] : Registry) "m" "p" = .error 404 := rfl

/-- C5 (amended): the leave operation is no-op-safe only for an absent
player: if the room exists but the player is absent it returns ok and
changes nothing, while an absent room yields NotFound (404). -/
theorem C5_leave_noop (registry : Registry) (meeting_id player_id : String) :
    (List.lookup meeting_id registry = none →
      leave_game registry meeting_id player_id = .error 404) ∧
    (∀ room, List.lookup meeting_id registry = some room →
      List.lookup player_id room.players = none →
      leave_game registry meeting_id player_id =
        .ok (registry, [], { status := "ok" })) := by
  constructor
  · intro h; simp [leave_game, h]
  · intro room hr hp; simp [leave_game, hr, hp]

/-- C5 (witness): both branches of the amended statement at concrete
inputs. -/
theorem C5_leave_noop_witness :
    leave_game ([] : Registry) "mid" "pid" = .error 404 ∧
    leave_game demoRegistry "m" "ghost" =
      .ok (demoRegistry, [], { status := "ok" }) :=
  ⟨(C5_leave_noop [] "mid" "pid").1 rfl,
   (C5_leave_noop demoRegistry "m" "ghost").2 _ rfl rfl⟩

/-- C7: marking an out-of-range cell on an existing room and player raises
no error, responds ok with the unchanged `hasBingo`, and leaves the player's
record (in particular `markedCells` and `hasBingo`) unchanged. -/
theorem C7_mark_out_of_range (registry : Registry) (meeting_id player_id : String)
    (row col : Int) (now : Nat) (room : GameRoom) (player : PlayerState)
    (hroom : List.lookup meeting_id registry = some room)
    (hplayer : List.lookup player_id room.players = some player)
    (hrange : ¬(0 ≤ row ∧ row < 5 ∧ 0 ≤ col ∧ col < 5)) :
    ∃ out, mark_cell registry meeting_id player_id row col now = .ok out ∧
      out.2.2 = { status := "ok", has_bingo := player.has_bingo } ∧
      playerLookup out.1 meeting_id player_id = some player := by
  have hcall : mark_cell registry meeting_id player_id row col now =
      .ok (setA registry meeting_id
            { room with players := setA room.players player_id player },
          Event.player_updated player.to_dict ::
            (if player.has_bingo then [Event.bingo player_id player.player_name]
             else []),
          { status := "ok", has_bingo := player.has_bingo }) := by
    simp only [mark_cell, hroom, hplayer, if_neg hrange]
  exact ⟨_, hcall, rfl, by simp [playerLookup_setA, lookup_setA_self]⟩

/-- C7 (witness): marking row 7 of the demo room's player succeeds and
leaves the player untouched. -/
theorem C7_mark_out_of_range_witness :
    ∃ out, mark_cell demoRegistry "m" "p" 7 0 1 = .ok out ∧
      out.2.2 = { status := "ok",
                  has_bingo := ({ player_id := "p", player_name := "n" } :
                    PlayerState).has_bingo } ∧
      playerLookup out.1 "m" "p" =
        some { player_id := "p", player_name := "n" } :=
  C7_mark_out_of_range demoRegistry "m" "p" 7 0 1 _ _ rfl rfl (by decide)

/-- C4 (counterexample): posting a 1×0 grid to the set-words endpoint stores
it verbatim, so a reachable player state carries a non-5×5 `cardWords`
grid. -/
theorem C4_words_counterexample :
    ∃ registry1 p,
      set_player_words demoRegistry "m" "p" [[]] =
        .ok (registry1, { status := "ok" }) ∧
      playerLookup registry1 "m" "p" = some p ∧
      p.words = [[]] ∧ ¬ is5x5 p.words := by
  refine ⟨_, _, rfl, rfl, rfl, by decide⟩

/-- C4 (amended): a freshly joined player's `cardWords` (and `markedCells`)
grid is 5×5; marking and transcription never change `cardWords`; and the
set-words operation stores exactly the posted grid, so the stored grid is
5×5 precisely when the posted grid is. -/
theorem C4_words_shape :
    (∀ registry mid name ip pid now, ∃ p,
      playerLookup (join_game registry mid name ip pid now).1 mid pid = some p ∧
      is5x5 p.words ∧ is5x5 p.marked_cells) ∧
    (∀ registry mid pid words out,
      set_player_words registry mid pid words = .ok out →
      ∀ p, playerLookup out.1 mid pid = some p → p.words = words) ∧
    (∀ registry mid pid row col now out,
      mark_cell registry mid pid row col now = .ok out →
      ∀ mid' pid' p p', playerLookup registry mid' pid' = some p →
        playerLookup out.1 mid' pid' = some p' → p'.words = p.words) ∧
    (∀ registry mid pid t lang mid' pid' p p',
      playerLookup registry mid' pid' = some p →
      playerLookup (transcribe_audio registry mid pid t lang).1 mid' pid' = some p' →
      p'.words = p.words) := by
  refine ⟨?_, ?_, ?_, ?_⟩
  · intro registry mid name ip pid now
    have h55s : is5x5 (List.replicate 5 (List.replicate 5 "")) := by decide
    have h55b : is5x5 (List.replicate 5 (List.replicate 5 false)) := by decide
    refine ⟨{ player_id := pid, player_name := name, client_ip := ip,
              last_seen := now }, ?_, h55s, h55b⟩
    simp [join_game, playerLookup_setA, lookup_setA_self]
  · intro registry mid pid words out hok p hp
    cases hroom : List.lookup mid registry with
    | none => simp [set_player_words, hroom] at hok
    | some room =>
      cases hplayer : List.lookup pid room.players with
      | none => simp [set_player_words, hroom, hplayer] at hok
      | some player =>
        simp only [set_player_words, hroom, hplayer, Except.ok.injEq] at hok
        subst hok
        rw [playerLookup_setA, if_pos rfl, lookup_setA_self] at hp
        cases hp; rfl
  · intro registry mid pid row col now out hok mid' pid' p p' hp hp'
    cases hroom : List.lookup mid registry with
    | none => simp [mark_cell, hroom] at hok
    | some room =>
      cases hplayer : List.lookup pid room.players with
      | none => simp [mark_cell, hroom, hplayer] at hok
      | some player =>
        simp only [mark_cell, hroom, hplayer, Except.ok.injEq] at hok
        subst hok
        rw [playerLookup_setA] at hp'
        by_cases hm : mid' = mid
        · subst hm
          rw [if_pos rfl, lookup_setA_cases] at hp'
          by_cases hq : pid' = pid
          · subst hq
            rw [if_pos rfl] at hp'
            cases hp'
            simp only [playerLookup, hroom, hplayer, Option.some.injEq] at hp
            subst hp
            by_cases hr : 0 ≤ row ∧ row < 5 ∧ 0 ≤ col ∧ col < 5
            · simp [hr, markPlayer]
            · simp [hr]
          · rw [if_neg hq] at hp'
            simp only [playerLookup, hroom] at hp
            rw [hp] at hp'
            cases hp'; rfl
        · rw [if_neg hm] at hp'
          rw [hp] at hp'
          cases hp'; rfl
  -- the transcribe part
  · intro registry mid pid t lang mid' pid' p p' hp hp'
    cases hroom : List.lookup mid registry with
    | none =>
      simp only [transcribe_audio, hroom] at hp'
      rw [hp] at hp'; cases hp'; rfl
    | some room =>
      cases hplayer : List.lookup pid room.players with
      | none =>
        simp only [transcribe_audio, hroom, hplayer] at hp'
        rw [hp] at hp'; cases hp'; rfl
      | some player =>
        simp only [transcribe_audio, hroom, hplayer] at hp'
        rw [playerLookup_setA] at hp'
        by_cases hm : mid' = mid
        · subst hm
          rw [if_pos rfl, lookup_setA_cases] at hp'
          by_cases hq : pid' = pid
          · subst hq
            rw [if_pos rfl] at hp'
            simp only [playerLookup, hroom, hplayer, Option.some.injEq] at hp
            subst hp
            by_cases hms : (find_matching_words t player.words).isEmpty
            · simp only [hms, if_pos] at hp'
              cases hp'; rfl
            · simp only [hms, Bool.false_eq_true, if_neg, not_false_eq_true] at hp'
              cases hp'; rfl
          · rw [if_neg hq] at hp'
            simp only [playerLookup, hroom] at hp
            rw [hp] at hp'
            cases hp'; rfl
        · rw [if_neg hm] at hp'
          rw [hp] at hp'
          cases hp'; rfl

/-- A concrete full 5×5 word grid, for witnesses. -/
def wordsGrid5 : List (List String) := List.replicate 5 (List.replicate 5 "w")

/-- The state after posting `wordsGrid5` to the demo player. -/
def setWordsDemoOut : Registry × StatusResponse :=
  (set_player_words demoRegistry "m" "p" wordsGrid5).toOption.getD
    ([], { status := "" })

/-- C4 (witness): the amended statement at concrete inputs — a join into an
empty registry yields 5×5 grids, and a posted 5×5 grid is stored verbatim. -/
theorem C4_words_shape_witness :
    (∃ p, playerLookup (join_game [] "m" "n" "ip" "p" 0).1 "m" "p" = some p ∧
      is5x5 p.words ∧ is5x5 p.marked_cells) ∧
    ({ player_id := "p", player_name := "n", words := wordsGrid5 } :
      PlayerState).words = wordsGrid5 :=
  ⟨C4_words_shape.1 [] "m" "n" "ip" "p" 0,
   C4_words_shape.2.1 demoRegistry "m" "p" wordsGrid5 setWordsDemoOut rfl _ rfl⟩

/-- C2: for every 5×5 boolean grid the win detector returns true iff some
row, some column, the main diagonal, or the anti-diagonal is entirely
true. -/
theorem C2_check_bingo (g : List (List Bool)) (hlen : g.length = 5)
    (hrows : ∀ r ∈ g, r.length = 5) :
    check_bingo g = true ↔ winSpec g := by
  have hrowiff : (g.any (fun row => row.all (fun b => b)) = true) ↔
      ∃ r < 5, ∀ c < 5, cellAt g r c = true := by
    rw [List.any_eq_true]
    constructor
    · rintro ⟨row, hmem, hall⟩
      obtain ⟨i, hi, hgi⟩ := List.mem_iff_getElem.mp hmem
      refine ⟨i, by omega, ?_⟩
      intro c hc
      have hrl : row.length = 5 := hrows row hmem
      unfold cellAt
      rw [getD_eq_getElem_of_lt _ _ _ hi, hgi,
        getD_eq_getElem_of_lt _ _ _ (by omega)]
      exact (List.all_eq_true.mp hall) _ (List.getElem_mem _)
    · rintro ⟨r, hr, hall⟩
      have hrl : r < g.length := by omega
      refine ⟨g[r], List.getElem_mem _, ?_⟩
      rw [List.all_eq_true]
      intro b hb
      obtain ⟨c, hc, hbc⟩ := List.mem_iff_getElem.mp hb
      have hclen : g[r].length = 5 := hrows _ (List.getElem_mem _)
      have hcell := hall c (by omega)
      unfold cellAt at hcell
      rw [getD_eq_getElem_of_lt _ _ _ hrl, getD_eq_getElem_of_lt _ _ _ hc] at hcell
      simp only [← hbc, hcell]
  have hcol : ((List.range 5).any (fun col =>
        (List.range 5).all (fun row => (g.getD row []).getD col false)) = true) ↔
      ∃ c < 5, ∀ r < 5, cellAt g r c = true := by
    simp [List.any_eq_true, List.all_eq_true, List.mem_range, cellAt]
  have hd1 : ((List.range 5).all (fun i => (g.getD i []).getD i false) = true) ↔
      ∀ i < 5, cellAt g i i = true := by
    simp [List.all_eq_true, List.mem_range, cellAt]
  have hd2 : ((List.range 5).all (fun i => (g.getD i []).getD (4 - i) false) = true) ↔
      ∀ i < 5, cellAt g i (4 - i) = true := by
    simp [List.all_eq_true, List.mem_range, cellAt]
  unfold check_bingo winSpec
  simp only [Bool.or_eq_true]
  rw [hrowiff, hcol, hd1, hd2]
  simp only [or_assoc]

/-- A grid whose main diagonal is fully marked, for the C2 witness. -/
def diagGrid : List (List Bool) :=
  [[true, false, false, false, false],
   [false, true, false, false, false],
   [false, false, true, false, false],
   [false, false, false, true, false],
   [false, false, false, false, true]]

/-- C2 (witness): the equivalence at a concrete diagonal grid. -/
theorem C2_check_bingo_witness : check_bingo diagGrid = true ↔ winSpec diagGrid :=
  C2_check_bingo diagGrid (by decide) (by decide)

/-- Concrete room whose player already has bingo: the whole first row of
`marked_cells` is true and `has_bingo` is set accordingly. -/
def bingoRegistry : Registry :=
  [("m", { meeting_id := "m",
           players := [("p",
             { player_id := "p", player_name := "n",
               marked_cells :=
                 [[true, true, true, true, true],
                  [false, false, false, false, false],
                  [false, false, false, false, false],
                  [false, false, false, false, false],
                  [false, false, false, false, false]],
               has_bingo := true })] })]

/-- C3 (counterexample): marking cell (1,1) of a player whose `hasBingo` is
already true broadcasts another `bingo` event, although no false→true
transition happens — the source re-broadcasts `bingo` on every mark while
`has_bingo` holds. -/
theorem C3_bingo_counterexample :
    (playerLookup bingoRegistry "m" "p").map PlayerState.has_bingo = some true ∧
    (mark_cell bingoRegistry "m" "p" 1 1 0).toOption.map
        (fun out => out.2.1.contains (Event.bingo "p" "n")) = some true := by
  exact ⟨rfl, by decide⟩

/-- C3 (amended): a `bingo` event is broadcast by a successful MarkCell iff
`hasBingo` is true after the update — the event is re-broadcast by every
mark while the player has bingo, not only on the false→true transition. -/
theorem C3_bingo_rebroadcast (registry : Registry) (mid pid : String)
    (row col : Int) (now : Nat) (out : Registry × List Event × MarkCellResponse)
    (hok : mark_cell registry mid pid row col now = .ok out) :
    (∃ name, Event.bingo pid name ∈ out.2.1) ↔ out.2.2.has_bingo = true := by
  cases hroom : List.lookup mid registry with
  | none => simp [mark_cell, hroom] at hok
  | some room =>
    cases hplayer : List.lookup pid room.players with
    | none => simp [mark_cell, hroom, hplayer] at hok
    | some player =>
      simp only [mark_cell, hroom, hplayer, Except.ok.injEq] at hok
      subst hok
      by_cases hb :
          (if 0 ≤ row ∧ row < 5 ∧ 0 ≤ col ∧ col < 5 then
            markPlayer player row.toNat col.toNat now
          else player).has_bingo = true
      · simp [hb]
      · simp [hb]

/-- The result of one concrete in-range mark on the demo room, for the C3
witness. -/
def markDemoOut : Registry × List Event × MarkCellResponse :=
  (mark_cell demoRegistry "m" "p" 0 0 1).toOption.getD
    ([], [], { status := "", has_bingo := false })

/-- C3 (witness): the amended statement applied to a concrete mark. -/
theorem C3_bingo_rebroadcast_witness :
    (∃ name, Event.bingo "p" name ∈ markDemoOut.2.1) ↔
      markDemoOut.2.2.has_bingo = true :=
  C3_bingo_rebroadcast demoRegistry "m" "p" 0 0 1 markDemoOut rfl

/-- Frame lemma: after replacing player `pid` of room `mid` by `p1`, any
player looked up is either unchanged or exactly the replaced one. -/
theorem playerLookup_frame (registry : Registry) (mid pid : String)
    (room room1 : GameRoom) (player p1 : PlayerState)
    (hroom : List.lookup mid registry = some room)
    (hplayer : List.lookup pid room.players = some player)
    (hroom1 : room1.players = setA room.players pid p1)
    (mid' pid' : String) (p p' : PlayerState)
    (hp : playerLookup registry mid' pid' = some p)
    (hp' : playerLookup (setA registry mid room1) mid' pid' = some p') :
    p' = p ∨ (mid' = mid ∧ pid' = pid ∧ p = player ∧ p' = p1) := by
  rw [playerLookup_setA] at hp'
  by_cases hm : mid' = mid
  · subst hm
    rw [if_pos rfl, hroom1, lookup_setA_cases] at hp'
    by_cases hq : pid' = pid
    · subst hq
      rw [if_pos rfl] at hp'
      cases hp'
      simp only [playerLookup, hroom, hplayer, Option.some.injEq] at hp
      exact Or.inr ⟨rfl, rfl, hp.symm, rfl⟩
    · rw [if_neg hq] at hp'
      simp only [playerLookup, hroom] at hp
      rw [hp] at hp'
      cases hp'
      exact Or.inl rfl
  · rw [if_neg hm] at hp'
    rw [hp] at hp'
    cases hp'
    exact Or.inl rfl

/-- C9: the marked grid is monotone under the three marking operations —
REST mark, WebSocket mark, and transcription auto-marking never turn a true
cell back to false, for any player of any room. -/
theorem C9_marks_monotone :
    (∀ registry mid pid row col now out,
      mark_cell registry mid pid row col now = .ok out →
      ∀ mid' pid' p p', playerLookup registry mid' pid' = some p →
        playerLookup out.1 mid' pid' = some p' →
        gridMonotone p.marked_cells p'.marked_cells) ∧
    (∀ registry mid pid row col now out,
      ws_mark_cell registry mid pid row col now = some out →
      ∀ mid' pid' p p', playerLookup registry mid' pid' = some p →
        playerLookup out.1 mid' pid' = some p' →
        gridMonotone p.marked_cells p'.marked_cells) ∧
    (∀ registry mid pid t lang,
      ∀ mid' pid' p p', playerLookup registry mid' pid' = some p →
        playerLookup (transcribe_audio registry mid pid t lang).1 mid' pid' = some p' →
        gridMonotone p.marked_cells p'.marked_cells) := by
  refine ⟨?_, ?_, ?_⟩
  · intro registry mid pid row col now out hok mid' pid' p p' hp hp'
    cases hroom : List.lookup mid registry with
    | none => simp [mark_cell, hroom] at hok
    | some room =>
      cases hplayer : List.lookup pid room.players with
      | none => simp [mark_cell, hroom, hplayer] at hok
      | some player =>
        simp only [mark_cell, hroom, hplayer, Except.ok.injEq] at hok
        subst hok
        rcases playerLookup_frame registry mid pid room _ player _ hroom hplayer
          rfl mid' pid' p p' hp hp' with h | ⟨_, _, hpp, hp1⟩
        · subst h; exact gridMonotone_refl _
        · subst hpp; subst hp1
          by_cases hr : 0 ≤ row ∧ row < 5 ∧ 0 ≤ col ∧ col < 5
          · simp only [if_pos hr, markPlayer]
            exact gridMonotone_setCell _ _ _
          · simp only [if_neg hr]
            exact gridMonotone_refl _
  · intro registry mid pid row col now out hok mid' pid' p p' hp hp'
    cases hroom : List.lookup mid registry with
    | none => simp [ws_mark_cell, hroom] at hok
    | some room =>
      cases hplayer : List.lookup pid room.players with
      | none => simp [ws_mark_cell, hroom, hplayer] at hok
      | some player =>
        by_cases hr : 0 ≤ row ∧ row < 5 ∧ 0 ≤ col ∧ col < 5
        · simp only [ws_mark_cell, hroom, hplayer, if_pos hr, Option.some.injEq] at hok
          subst hok
          rcases playerLookup_frame registry mid pid room _ player _ hroom hplayer
            rfl mid' pid' p p' hp hp' with h | ⟨_, _, hpp, hp1⟩
          · subst h; exact gridMonotone_refl _
          · subst hpp; subst hp1
            simp only [markPlayer]
            exact gridMonotone_setCell _ _ _
        · simp only [ws_mark_cell, hroom, hplayer, if_neg hr, Option.some.injEq] at hok
          subst hok
          rw [hp] at hp'
          cases hp'
          exact gridMonotone_refl _
  · intro registry mid pid t lang mid' pid' p p' hp hp'
    cases hroom : List.lookup mid registry with
    | none =>
      simp only [transcribe_audio, hroom] at hp'
      rw [hp] at hp'; cases hp'
      exact gridMonotone_refl _
    | some room =>
      cases hplayer : List.lookup pid room.players with
      | none =>
        simp only [transcribe_audio, hroom, hplayer] at hp'
        rw [hp] at hp'; cases hp'
        exact gridMonotone_refl _
      | some player =>
        simp only [transcribe_audio, hroom, hplayer] at hp'
        rcases playerLookup_frame registry mid pid room _ player _ hroom hplayer
          rfl mid' pid' p p' hp hp' with h | ⟨_, _, hpp, hp1⟩
        · subst h; exact gridMonotone_refl _
        · subst hpp; subst hp1
          split
          · exact gridMonotone_applyMatches _ _ _ _ _
          · exact gridMonotone_applyMatches _ _ _ _ _

/-- C9 (witness): the REST-mark part of the monotonicity statement applied
to a concrete mark on the demo room. -/
theorem C9_marks_monotone_witness :
    gridMonotone
      ({ player_id := "p", player_name := "n" } : PlayerState).marked_cells
      (markPlayer { player_id := "p", player_name := "n" } 0 0 1).marked_cells :=
  C9_marks_monotone.1 demoRegistry "m" "p" 0 0 1 markDemoOut rfl "m" "p" _ _ rfl rfl

/-- C6: after a JoinRoom, the players of the room whose `clientIdentity`
(client IP) equals the joining identity are exactly the newly joined
player, and every previously present matching record got a `player_left`
broadcast. -/
theorem C6_join_dedup (registry : Registry) (mid name ip pid : String) (now : Nat) :
    ∃ room1, List.lookup mid (join_game registry mid name ip pid now).1 = some room1 ∧
      room1.players.filter (fun pr => pr.2.client_ip = ip) =
        [(pid, { player_id := pid, player_name := name, client_ip := ip,
                 last_seen := now })] ∧
      (∀ room q p, List.lookup mid registry = some room → (q, p) ∈ room.players →
        p.client_ip = ip →
        Event.player_left q p.player_name ∈ (join_game registry mid name ip pid now).2.1) := by
  simp only [join_game]
  refine ⟨_, lookup_setA_self _ _ _, ?_, ?_⟩
  · refine filter_setA_unique _ _ _ _ ?_ (by simp)
    intro x hx
    have hmem := List.of_mem_filter hx
    simpa using hmem
  · intro room q p hroom hmem hip
    simp only [hroom]
    refine List.mem_append_left _ ?_
    exact List.mem_map.mpr ⟨(q, p), List.mem_filter.mpr ⟨hmem, by simpa using hip⟩, rfl⟩

/-- C8: transcription only ever changes the named player — every other
player's state is unchanged, the named player's fields other than the
marked grid and the derived `has_bingo` are unchanged, the transcript is
always returned, and with an absent room or player the registry is
untouched and nothing is marked. -/
theorem C8_transcribe_frame (registry : Registry)
    (mid pid transcript language : String) :
    (transcribe_audio registry mid pid transcript language).2.2.transcript = transcript ∧
    (∀ mid' pid', ¬(mid' = mid ∧ pid' = pid) →
      playerLookup (transcribe_audio registry mid pid transcript language).1 mid' pid' =
        playerLookup registry mid' pid') ∧
    (∀ p p', playerLookup registry mid pid = some p →
      playerLookup (transcribe_audio registry mid pid transcript language).1 mid pid =
        some p' →
      p'.player_id = p.player_id ∧ p'.player_name = p.player_name ∧
      p'.client_ip = p.client_ip ∧ p'.words = p.words ∧
      p'.connected = p.connected ∧ p'.last_seen = p.last_seen) ∧
    (playerLookup registry mid pid = none →
      (transcribe_audio registry mid pid transcript language).1 = registry ∧
      (transcribe_audio registry mid pid transcript language).2.2.marked_cells = []) := by
  cases hroom : List.lookup mid registry with
  | none =>
    have hout : transcribe_audio registry mid pid transcript language =
        (registry, [], { status := "ok", transcript := transcript,
                         language := language, marked_cells := [] }) := by
      simp [transcribe_audio, hroom]
    refine ⟨by rw [hout], ?_, ?_, ?_⟩
    · intro mid' pid' _; rw [hout]
    · intro p p' hp hp'
      simp only [playerLookup, hroom] at hp
      cases hp
    · intro _; rw [hout]; exact ⟨rfl, rfl⟩
  | some room =>
    cases hplayer : List.lookup pid room.players with
    | none =>
      have hout : transcribe_audio registry mid pid transcript language =
          (registry, [], { status := "ok", transcript := transcript,
                           language := language, marked_cells := [] }) := by
        simp [transcribe_audio, hroom, hplayer]
      refine ⟨by rw [hout], ?_, ?_, ?_⟩
      · intro mid' pid' _; rw [hout]
      · intro p p' hp hp'
        simp only [playerLookup, hroom, hplayer] at hp
        cases hp
      · intro _; rw [hout]; exact ⟨rfl, rfl⟩
    | some player =>
      refine ⟨?_, ?_, ?_, ?_⟩
      · simp [transcribe_audio, hroom, hplayer]
      · intro mid' pid' hne
        simp only [transcribe_audio, hroom, hplayer]
        rw [playerLookup_setA]
        by_cases hm : mid' = mid
        · subst hm
          rw [if_pos rfl]
          have hq : pid' ≠ pid := fun h => hne ⟨rfl, h⟩
          rw [lookup_setA_ne _ _ _ _ hq]
          simp [playerLookup, hroom]
        · rw [if_neg hm]
      · intro p p' hp hp'
        simp only [playerLookup, hroom, hplayer, Option.some.injEq] at hp
        simp only [transcribe_audio, hroom, hplayer] at hp'
        rw [playerLookup_setA, if_pos rfl, lookup_setA_self] at hp'
        cases hp'
        subst hp
        refine ⟨?_, ?_, ?_, ?_, ?_, ?_⟩ <;> (split <;> rfl)
      · intro hnone
        simp only [playerLookup, hroom, hplayer] at hnone
        cases hnone

/-- C8 (witness): the frame statement applied at concrete inputs: the
transcript comes back, a foreign (meeting, player) pair is unchanged, and a
request against an empty registry leaves it untouched. -/
theorem C8_transcribe_frame_witness :
    (transcribe_audio demoRegistry "m" "p" "hello there" "en").2.2.transcript =
      "hello there" ∧
    playerLookup (transcribe_audio demoRegistry "m" "p" "hello there" "en").1 "x" "q" =
      playerLookup demoRegistry "x" "q" ∧
    ((transcribe_audio [] "m" "p" "hello there" "en").1 = ([] : Registry) ∧
      (transcribe_audio [] "m" "p" "hello there" "en").2.2.marked_cells = []) :=
  ⟨(C8_transcribe_frame demoRegistry "m" "p" "hello there" "en").1,
   (C8_transcribe_frame demoRegistry "m" "p" "hello there" "en").2.1 "x" "q"
     (by decide),
   (C8_transcribe_frame [] "m" "p" "hello there" "en").2.2.2 rfl⟩

theorem applyMatches_reported (pid name : String) (words : List (List String)) :
    ∀ (lst : List (Nat × Nat)) (marked : List (List Bool)), lst.Nodup →
      (applyMatches pid name words marked lst).2.map (fun i => (i.row, i.col)) =
        lst.filter (fun rc => !(cellAt marked rc.1 rc.2)) := by
  intro lst
  induction lst with
  | nil => intro marked _; simp [applyMatches]
  | cons hd tl ih =>
    intro marked hnd
    obtain ⟨r, c⟩ := hd
    rw [List.nodup_cons] at hnd
    by_cases hm : cellAt marked r c = true
    · rw [show applyMatches pid name words marked ((r, c) :: tl) =
          applyMatches pid name words marked tl by simp [applyMatches, hm]]
      rw [List.filter_cons]
      simp only [hm, Bool.not_true, Bool.false_eq_true, if_neg, not_false_eq_true]
      exact ih marked hnd.2
    · have hm' : cellAt marked r c = false := by
        cases hcell : cellAt marked r c
        · rfl
        · exact absurd hcell hm
      rw [show applyMatches pid name words marked ((r, c) :: tl) =
          ((applyMatches pid name words (setCell marked r c) tl).1,
            { player_id := pid, player_name := name, row := r, col := c,
              word := (words.getD r []).getD c "" } ::
              (applyMatches pid name words (setCell marked r c) tl).2) by
            simp [applyMatches, hm']]
      rw [List.filter_cons]
      simp only [hm', Bool.not_false, if_pos, List.map_cons]
      rw [ih (setCell marked r c) hnd.2]
      have hcong : tl.filter (fun rc => !(cellAt (setCell marked r c) rc.1 rc.2)) =
          tl.filter (fun rc => !(cellAt marked rc.1 rc.2)) := by
        refine List.filter_congr ?_
        intro x hx
        have hne : ¬(x.1 = r ∧ x.2 = c) := by
          rintro ⟨h1, h2⟩
          exact hnd.1 (by
            have : x = (r, c) := Prod.ext h1 h2
            simpa [this] using hx)
        rw [cellAt_setCell_ne _ _ _ _ _ hne]
      rw [hcong]

theorem filterMap_guard_sublist {α β : Type} (f : α → Option β) (g : α → β)
    (hf : ∀ a, f a = none ∨ f a = some (g a)) :
    ∀ l : List α, List.Sublist (l.filterMap f) (l.map g) := by
  intro l
  induction l with
  | nil => simp
  | cons a l ih =>
    rcases hf a with h | h
    · rw [List.filterMap_cons, h, List.map_cons]
      exact ih.cons _
    · rw [List.filterMap_cons, h, List.map_cons]
      exact ih.cons₂ _

theorem flatten_sublist {α : Type} (f g : Nat → List α)
    (h : ∀ a, List.Sublist (f a) (g a)) :
    ∀ l : List Nat, List.Sublist ((l.map f).flatten) ((l.map g).flatten) := by
  intro l
  induction l with
  | nil => simp
  | cons a l ih =>
    simp only [List.map_cons, List.flatten_cons]
    exact List.Sublist.append (h a) ih

/-- All 25 cell coordinates in row-major order. -/
def allCells : List (Nat × Nat) :=
  ((List.range 5).map (fun r => (List.range 5).map (fun c => (r, c)))).flatten

theorem find_matching_words_sublist (t : String) (words : List (List String)) :
    List.Sublist (find_matching_words t words) allCells := by
  unfold find_matching_words allCells
  refine flatten_sublist _ _ ?_ _
  intro row
  refine filterMap_guard_sublist _ (fun c => (row, c)) ?_ _
  intro c
  dsimp only
  split
  · exact Or.inl rfl
  · split
    · exact Or.inl rfl
    · split
      · split
        · exact Or.inr rfl
        · exact Or.inl rfl
      · split
        · exact Or.inr rfl
        · exact Or.inl rfl

theorem find_matching_words_nodup (t : String) (words : List (List String)) :
    (find_matching_words t words).Nodup :=
  List.Nodup.sublist (find_matching_words_sublist t words) (by decide)

/-- C10: the `marked_cells` list in the transcribe response reports exactly
the matched cells that were unmarked before the call, in match order — a
cell that matched but was already marked is not reported. -/
theorem C10_transcribe_reported (registry : Registry)
    (mid pid transcript language : String) (room : GameRoom) (player : PlayerState)
    (hroom : List.lookup mid registry = some room)
    (hplayer : List.lookup pid room.players = some player) :
    ((transcribe_audio registry mid pid transcript language).2.2.marked_cells).map
        (fun info => (info.row, info.col)) =
      (find_matching_words transcript player.words).filter
        (fun rc => !(cellAt player.marked_cells rc.1 rc.2)) := by
  simp only [transcribe_audio, hroom, hplayer]
  exact applyMatches_reported pid player.player_name player.words _
    player.marked_cells (find_matching_words_nodup transcript player.words)

/-- Player card used by the C10 witness: `"box"` at (0,0) unmarked and
`"win"` at (0,1) already marked. -/
def matchRegistry : Registry :=
  [("m", { meeting_id := "m",
           players := [("p",
             { player_id := "p", player_name := "n",
               marked_cells :=
                 [[false, true, false, false, false],
                  [false, false, false, false, false],
                  [false, false, false, false, false],
                  [false, false, false, false, false],
                  [false, false, false, false, false]],
               words :=
                 [["box", "win", "", "", ""],
                  ["", "", "", "", ""],
                  ["", "", "", "", ""],
                  ["", "", "", "", ""],
                  ["", "", "", "", ""]] })] })]

/-- C10 (witness): the reported-cells statement at a concrete transcribe
request whose transcript matches both a fresh and an already-marked cell. -/
theorem C10_transcribe_reported_witness :
    ((transcribe_audio matchRegistry "m" "p" "win the box" "en").2.2.marked_cells).map
        (fun info => (info.row, info.col)) =
      (find_matching_words "win the box"
          [["box", "win", "", "", ""], ["", "", "", "", ""], ["", "", "", "", ""],
           ["", "", "", "", ""], ["", "", "", "", ""]]).filter
        (fun rc =>
          !(cellAt
              [[false, true, false, false, false],
               [false, false, false, false, false],
               [false, false, false, false, false],
               [false, false, false, false, false],
               [false, false, false, false, false]] rc.1 rc.2)) :=
  C10_transcribe_reported matchRegistry "m" "p" "win the box" "en" _ _ rfl rfl

theorem occAux_mono (g : Nat) :
    ∀ (ts ps : List String) (b b' : Nat), b ≤ b' →
      occAux g b ps ts = true → occAux g b' ps ts = true := by
  intro ts
  induction ts with
  | nil =>
    intro ps b b' _ h
    cases ps with
    | nil => simp [occAux]
    | cons p ps => simp [occAux] at h
  | cons t ts ih =>
    intro ps b b' hbb h
    cases ps with
    | nil => simp [occAux]
    | cons p ps =>
      simp only [occAux, Bool.or_eq_true, Bool.and_eq_true] at h ⊢
      rcases h with h | h
      · exact Or.inl h
      · cases b with
        | zero => simp at h
        | succ b0 =>
          cases b' with
          | zero => omega
          | succ b0' => exact Or.inr (ih (p :: ps) b0 b0' (by omega) h)

theorem occStart_cons (g : Nat) (p t : String) (ps ts : List String)
    (h : occStart g p ps ts = true) : occStart g p ps (t :: ts) = true := by
  simp only [occStart, Bool.or_eq_true]
  exact Or.inr h

/-- Invariant of the greedy scan of `phrase_matches_transcript`: if the scan
succeeds from a state `(i, last, idx)` with `idx < |ps|` and `last < i`,
then either a complete gap-bounded occurrence of the phrase starts in the
remaining transcript, or (when a partial match is in progress) the rest of
the phrase occurs in the remaining transcript with the first match within
the remaining gap budget `g - (i - last - 1)`. -/
theorem pmtGo_occ (ps : List String) (g : Nat) :
    ∀ (ts : List String) (i : Nat) (last : Int) (idx : Nat),
      idx < ps.length → last < (i : Int) →
      pmtGo ps g ts i last idx = true →
      occStart g (ps.getD 0 "") (ps.drop 1) ts = true ∨
      (0 < idx ∧ ∃ b : Nat, (i : Int) - last - 1 ≤ (g : Int) - (b : Int) ∧
        occAux g b (ps.drop idx) ts = true) := by
  intro ts
  induction ts with
  | nil => intro i last idx _ _ h; simp [pmtGo] at h
  | cons t ts ih =>
    intro i last idx hidx hlast h
    simp only [pmtGo] at h
    by_cases ht : t = ps.getD idx ""
    · rw [if_pos ht] at h
      by_cases hgap : 0 < idx ∧ (g : Int) < (i : Int) - last - 1
      · rw [if_pos hgap] at h
        by_cases ht0 : t = ps.getD 0 ""
        · rw [if_pos ht0] at h
          have hlen2 : 1 < ps.length := by omega
          rcases ih (i + 1) (i : Int) 1 hlen2 (by push_cast; omega) h with
            h1 | ⟨_, b, hb, hocc⟩
          · exact Or.inl (occStart_cons g _ t _ _ h1)
          · have hble : b ≤ g := by push_cast at hb; omega
            have hocc' := occAux_mono g ts (ps.drop 1) b g hble hocc
            refine Or.inl ?_
            simp only [occStart, Bool.or_eq_true, Bool.and_eq_true,
              decide_eq_true_eq]
            exact Or.inl ⟨ht0, hocc'⟩
        · rw [if_neg ht0] at h
          rcases ih (i + 1) last 0 (by omega) (by push_cast; omega) h with
            h1 | ⟨h0, _⟩
          · exact Or.inl (occStart_cons g _ t _ _ h1)
          · exact absurd h0 (lt_irrefl 0)
      · rw [if_neg hgap] at h
        by_cases hdone : idx + 1 = ps.length
        · rw [if_pos hdone] at h
          rcases Nat.eq_zero_or_pos idx with hz | hpos
          · subst hz
            refine Or.inl ?_
            simp only [occStart, Bool.or_eq_true, Bool.and_eq_true,
              decide_eq_true_eq]
            refine Or.inl ⟨ht, ?_⟩
            have hnil : ps.drop 1 = [] := by
              apply List.drop_eq_nil_of_le
              omega
            rw [hnil]
            simp [occAux]
          · have hle : (i : Int) - last - 1 ≤ (g : Int) := by
              rcases not_and_or.mp hgap with hc | hc
              · exact absurd hpos hc
              · omega
            refine Or.inr ⟨hpos, ((g : Int) - ((i : Int) - last - 1)).toNat, ?_, ?_⟩
            · rw [Int.toNat_of_nonneg (by omega)]; omega
            · rw [List.drop_eq_getElem_cons hidx]
              have hnil : ps.drop (idx + 1) = [] := by
                rw [hdone]; exact List.drop_length _
              rw [hnil]
              simp only [occAux, Bool.or_eq_true, Bool.and_eq_true,
                decide_eq_true_eq]
              refine Or.inl ⟨?_, trivial⟩
              rw [← getD_eq_getElem_of_lt ps "" idx hidx]
              exact ht
        · rw [if_neg hdone] at h
          have hidx1 : idx + 1 < ps.length := Nat.lt_of_le_of_ne hidx hdone
          rcases ih (i + 1) (i : Int) (idx + 1) hidx1 (by push_cast; omega) h with
            h1 | ⟨_, b, hb, hocc⟩
          · exact Or.inl (occStart_cons g _ t _ _ h1)
          · have hble : b ≤ g := by push_cast at hb; omega
            have hocc' := occAux_mono g ts (ps.drop (idx + 1)) b g hble hocc
            rcases Nat.eq_zero_or_pos idx with hz | hpos
            · subst hz
              refine Or.inl ?_
              simp only [occStart, Bool.or_eq_true, Bool.and_eq_true,
                decide_eq_true_eq]
              exact Or.inl ⟨ht, hocc'⟩
            · have hle : (i : Int) - last - 1 ≤ (g : Int) := by
                rcases not_and_or.mp hgap with hc | hc
                · exact absurd hpos hc
                · omega
              refine Or.inr ⟨hpos, ((g : Int) - ((i : Int) - last - 1)).toNat, ?_, ?_⟩
              · rw [Int.toNat_of_nonneg (by omega)]; omega
              · rw [List.drop_eq_getElem_cons hidx]
                simp only [occAux, Bool.or_eq_true, Bool.and_eq_true,
                  decide_eq_true_eq]
                refine Or.inl ⟨?_, hocc'⟩
                rw [← getD_eq_getElem_of_lt ps "" idx hidx]
                exact ht
    · rw [if_neg ht] at h
      rcases ih (i + 1) last idx hidx (by push_cast; omega) h with
        h1 | ⟨hpos, b, hb, hocc⟩
      · exact Or.inl (occStart_cons g _ t _ _ h1)
      · refine Or.inr ⟨hpos, b + 1, ?_, ?_⟩
        · push_cast at hb ⊢; omega
        · rw [List.drop_eq_getElem_cons hidx] at hocc ⊢
          simp only [occAux, Bool.or_eq_true]
          exact Or.inr hocc

/-- Card with the multi-word phrase `"think outside box"` at (0,0). -/
def cardA : List (List String) :=
  [["think outside box", "", "", "", ""], ["", "", "", "", ""],
   ["", "", "", "", ""], ["", "", "", "", ""], ["", "", "", "", ""]]

/-- Card with the hyphenated phrase `"win-win"` at (0,0). -/
def cardB : List (List String) :=
  [["win-win", "", "", "", ""], ["", "", "", "", ""], ["", "", "", "", ""],
   ["", "", "", "", ""], ["", "", "", "", ""]]

/-- C1 (counterexample): the "iff" direction fails.  For the transcript
`"take one two three four take offline"` and card phrase `"take offline"`,
the stems `take, offlin` do occur in order with 0 intervening tokens
(positions 5 and 6), yet the matcher reports no match: its greedy scan
commits to the first `take`, and on the gap failure at `offlin` it only
restarts when the current token equals the first phrase stem. -/
theorem C1_phrase_matcher_counterexample :
    phrase_matches_transcript
        (stem_words (split_hyphenated "take offline"))
        (stem_words (pySplit (normalize_text "take one two three four take offline")))
      = false ∧
    existsOccurrence
        (stem_words (split_hyphenated "take offline"))
        (stem_words (pySplit (normalize_text "take one two three four take offline")))
      = true :=
  ⟨by decide, by decide⟩

/-- C1 (amended): a reported match for a multi-token phrase implies that all
phrase stems occur in the transcript stem sequence in order with at most 3
intervening tokens between consecutive matched stems (the converse can fail
because the greedy scan restarts only at a token equal to the first stem);
the three concrete examples hold: "thinking outside the box" matches
"think outside box", "it's a win win" matches "win-win", and two occurrences
of "win" four tokens apart do not satisfy "win-win". -/
theorem C1_phrase_matcher :
    (∀ ps ts : List String, 2 ≤ ps.length →
      phrase_matches_transcript ps ts = true → existsOccurrence ps ts = true) ∧
    find_matching_words "thinking outside the box" cardA = [(0, 0)] ∧
    find_matching_words "it's a win win" cardB = [(0, 0)] ∧
    find_matching_words "win one two three four win" cardB = [] := by
  refine ⟨?_, by decide, by decide, by decide⟩
  intro ps ts _ h
  unfold phrase_matches_transcript at h
  cases ps with
  | nil => simp at h
  | cons p ps' =>
    rw [if_neg (by simp)] at h
    rcases pmtGo_occ (p :: ps') 3 ts 0 (-1) 0 (by simp) (by norm_num) h with
      h1 | ⟨h0, _⟩
    · unfold existsOccurrence
      simpa using h1
    · exact absurd h0 (lt_irrefl 0)

/-- C1 (witness): the forward direction applied to a concrete match. -/
theorem C1_phrase_matcher_witness :
    existsOccurrence ["win", "win"] ["a", "win", "win"] = true :=
  C1_phrase_matcher.1 ["win", "win"] ["a", "win", "win"] (by decide) (by decide)

/-- C6 (witness): joining the demo room from the same IP as its existing
player (empty `client_ip`) replaces that player. -/
theorem C6_join_dedup_witness :
    ∃ room1, List.lookup "m" (join_game demoRegistry "m" "n2" "" "p2" 3).1 = some room1 ∧
      room1.players.filter (fun pr => pr.2.client_ip = "") =
        [("p2", { player_id := "p2", player_name := "n2", client_ip := "",
                  last_seen := 3 })] ∧
      (∀ room q p, List.lookup "m" demoRegistry = some room → (q, p) ∈ room.players →
        p.client_ip = "" →
        Event.player_left q p.player_name ∈ (join_game demoRegistry "m" "n2" "" "p2" 3).2.1) :=
  C6_join_dedup demoRegistry "m" "n2" "" "p2" 3

end MeetingBingo
